import Mathlib

/-!
Verification of the distant-label correction engine of the
`simple-queries` repository (files `sec3_data.py`, `sec3_proc.py`).

Texts, labels and queries are embedded as `List Char`; Python's substring
test `pat in text` becomes `occurs`, `str.lower()` becomes `lower`, and a
Python dict keyed by integers becomes an association list read with
`lookupN` (last binding wins, as a dict assignment overwrites).  Fallible
Python code (KeyError propagation) is embedded with `Except Unit`.
-/

/-- Embedding of Python's list/string startswith on character lists:
`hasPref p t` holds when `p` is a prefix of `t`. -/
def hasPref : List Char → List Char → Bool
  | [], _ => true
  | _ :: _, [] => false
  | p :: ps, t :: ts => p = t && hasPref ps ts

/-- Embedding of Python's substring containment test `pat in text`:
true when `pat` occurs contiguously anywhere in `text` (the empty
pattern occurs in every text, as in Python). -/
def occurs (pat : List Char) : List Char → Bool
  | [] => hasPref pat []
  | c :: t => hasPref pat (c :: t) || occurs pat t

/-- Embedding of Python's `str.lower()` on character lists. -/
def lower (s : List Char) : List Char := s.map Char.toLower

/-- Embedding of a Python dict subscript `m[k]` for an integer-keyed dict
represented as an association list in insertion order; a later binding for
the same key overwrites an earlier one, so the fold keeps the last match.
`none` corresponds to a KeyError. -/
def lookupN (m : List (Nat × List Char)) (k : Nat) : Option (List Char) :=
  m.foldl (fun acc p => if p.1 = k then some p.2 else acc) none

/-- The three construction-time rule sets of `DistantCollection`
(`sec3_data.py`, constructor arguments `filters`, `flip_any`,
`flip_prefix`). -/
structure Rules where
  filter : List (List Char)
  flip_any : List (List Char)
  flip_prefix : List (List Char)

/-- The list `query_tails = [" ", ".", "!", ",", ":", ";"]` of
`DistantCollection.flip_label` (`sec3_data.py` line 249); each element is a
one-character string. -/
def query_tails : List (List Char) := [[' '], ['.'], ['!'], [','], [':'], [';']]

/-- The label-flip expression `'m' if label == 'f' else 'f'` of
`DistantCollection.flip_label` (`sec3_data.py` lines 256 and 258). -/
def flipStr (label : List Char) : List Char :=
  if label = ("f").data then ("m").data else ("f").data

/-- Embedding of `DistantCollection.flip_label` (`sec3_data.py` lines
247-259).  `user_ids` and `query_ids` are the instance dictionaries
`self.user_ids` and `self.query_ids`; `text` is the caller-lowercased
tweet text.  A filter hit returns `Except.ok none` (Python `return` with
no value); a missing `uid` or `tid` key is a KeyError, embedded as
`Except.error ()`. -/
def flip_label (ru : Rules) (user_ids query_ids : List (Nat × List Char))
    (uid tid : Nat) (text : List Char) : Except Unit (Option (List Char)) :=
  if ru.filter.any (fun it => occurs it text) then Except.ok none
  else
    match lookupN user_ids uid with
    | none => Except.error ()
    | some label =>
      match lookupN query_ids tid with
      | none => Except.error ()
      | some query =>
        let label :=
          if query_tails.any (fun affix => occurs (query ++ affix) text) then
            if ru.flip_any.any (fun f => occurs f text) then flipStr label
            else if ru.flip_prefix.any (fun p => occurs (p ++ query) text) then
              flipStr label
            else label
          else label
        Except.ok (some label)

/-- A message record of the message store (`MessageRecord` in the spec):
the fields inserted by `DistantCollection.get_timelines`
(`sec3_data.py` lines 335-337). -/
structure MsgRecord where
  user_id : Nat
  tweet_id : Nat
  tweet_text : List Char

/-- A message record after `remove_query_tweets` has joined the label:
the original fields plus `distant_label` (`sec3_data.py` line 238). -/
structure MsgOut where
  user_id : Nat
  tweet_id : Nat
  tweet_text : List Char
  distant_label : List Char

/-- Loop body of `DistantCollection.remove_query_tweets` (`sec3_data.py`
lines 236-245) for one message record: join the label through
`self.user_ids` (KeyError when the user is unknown), attach it as
`distant_label`, then at `messages` granularity insert the record into the
corrected message store only when no configured query string occurs in the
lower-cased text, and at any other granularity only when the tweet id is
not a key of `self.query_ids`.  `Except.ok none` means the record is
skipped, `Except.ok (some out)` that `out` is inserted. -/
def rqt_step (queries : List (List Char)) (user_ids query_ids : List (Nat × List Char))
    (clean_level : List Char) (line : MsgRecord) : Except Unit (Option MsgOut) :=
  match lookupN user_ids line.user_id with
  | none => Except.error ()
  | some label =>
    if clean_level = ("messages").data then
      if queries.any (fun query => occurs query (lower line.tweet_text)) then
        Except.ok none
      else Except.ok (some ⟨line.user_id, line.tweet_id, line.tweet_text, label⟩)
    else
      if query_ids.any (fun p => p.1 == line.tweet_id) then Except.ok none
      else Except.ok (some ⟨line.user_id, line.tweet_id, line.tweet_text, label⟩)

/-- Embedding of `DistantCollection.remove_query_tweets` (`sec3_data.py`
lines 233-245): run `rqt_step` over the records of the message store in
order; the result is the content of the corrected message store
`msg_fix`, or the first error raised (in which case the pass aborts). -/
def remove_query_tweets (queries : List (List Char))
    (user_ids query_ids : List (Nat × List Char)) (clean_level : List Char) :
    List MsgRecord → Except Unit (List MsgOut)
  | [] => Except.ok []
  | line :: rest =>
    match rqt_step queries user_ids query_ids clean_level line with
    | Except.error e => Except.error e
    | Except.ok none => remove_query_tweets queries user_ids query_ids clean_level rest
    | Except.ok (some out) =>
      match remove_query_tweets queries user_ids query_ids clean_level rest with
      | Except.error e => Except.error e
      | Except.ok outs => Except.ok (out :: outs)

/-- A record of the raw hit store: the fields inserted by
`DistantCollection.get_users` (`sec3_data.py` lines 283-287). -/
structure HitRecord where
  user_id : Nat
  tweet_id : Nat
  tweet_text : List Char
  label : List Char
  query : List Char

/-- Embedding of `DistantCollection.correct_query_tweets` (`sec3_data.py`
lines 261-271): for each record of the raw hit store in order, compute
`flip_label(user_id, tweet_id, tweet_text.lower())` and insert the record
with the new label into the corrected store `hit_fix` only when the result
is truthy (`if new_label:`), that is, neither Python `None` nor the empty
string; a raised KeyError aborts the pass. -/
def correct_query_tweets (ru : Rules) (user_ids query_ids : List (Nat × List Char)) :
    List HitRecord → Except Unit (List HitRecord)
  | [] => Except.ok []
  | line :: rest =>
    match flip_label ru user_ids query_ids line.user_id line.tweet_id
        (lower line.tweet_text) with
    | Except.error e => Except.error e
    | Except.ok new_label =>
      match correct_query_tweets ru user_ids query_ids rest with
      | Except.error e => Except.error e
      | Except.ok outs =>
        match new_label with
        | some (c :: cs) => Except.ok ({ line with label := c :: cs } :: outs)
        | _ => Except.ok outs

/-- Embedding of Python's `round()` applied to the exact non-negative
rational `num / den` (`round(len(batches) * test_size)` in
`batches_to_sets`, `sec3_proc.py` line 192): round half to even. -/
def pyRoundHalfEven (num den : Nat) : Nat :=
  let q := num / den
  let r := num % den
  if 2 * r < den then q
  else if den < 2 * r then q + 1
  else if q % 2 = 0 then q else q + 1

/-- Embedding of the Python slice `l[:n]` for an integer `n` (used as
`batches[:n_train]`, `sec3_proc.py` line 194): a non-negative bound takes
the first `n` elements, a negative bound drops the last `-n`. -/
def pySliceTo (l : List (List Char)) (n : Int) : List (List Char) :=
  if 0 ≤ n then l.take n.toNat else l.take (l.length - (-n).toNat)

/-- Embedding of the Python slice `l[-k:]` for a natural `k` (used as
`batches[-n_test:]`, `sec3_proc.py` line 195): for `k = 0` the slice
`l[-0:]` is `l[0:]`, the whole list; for `k > 0` it is the last `k`
elements. -/
def pySliceLast (l : List (List Char)) (k : Nat) : List (List Char) :=
  if k = 0 then l else l.drop (l.length - k)

/-- Embedding of `batches_to_sets` (`sec3_proc.py` lines 188-199) from the
point where the `.dataf` file has been read and split on newlines:
`batches` is the list of lines, the test fraction is the exact rational
`ts_num / ts_den`, and the result is the pair of line lists written to the
`.train` and `.test` files (one element per line). -/
def batches_to_sets (batches : List (List Char)) (ts_num ts_den : Nat) :
    List (List Char) × List (List Char) :=
  let n_test := pyRoundHalfEven (batches.length * ts_num) ts_den
  let n_train : Int := (batches.length : Int) - (n_test : Int)
  (pySliceTo batches n_train, pySliceLast batches n_test)

/-- A JSON scalar value as stored by the record stores: the hit, user and
message records of `sec3_data.py` are flat objects whose values are
strings or integers (the spec's Record is "an ordered mapping of field
name to scalar/string value"). -/
inductive JVal where
  | s (str : List Char)
  | i (int : Int)
deriving DecidableEq

/-- A record as written to a store: an ordered mapping of field name to
scalar value (a Python dict with string keys). -/
abbrev Record := List (List Char × JVal)

/-- JSON string escaping of one character, as performed by `json.dumps`
for the characters that matter to the line-delimited store: backslash,
double quote, newline, carriage return and tab get a backslash escape;
every other character is emitted as itself. -/
def escChar (c : Char) : List Char :=
  if c = '\\' then ['\\', '\\']
  else if c = '"' then ['\\', '"']
  else if c = '\n' then ['\\', 'n']
  else if c = '\r' then ['\\', 'r']
  else if c = '\t' then ['\\', 't']
  else [c]

/-- JSON string escaping of a whole string body. -/
def escStr : List Char → List Char
  | [] => []
  | c :: cs => escChar c ++ escStr cs

/-- The decimal digit character of a digit value below ten. -/
def jdigit : Nat → Char
  | 0 => '0'
  | 1 => '1'
  | 2 => '2'
  | 3 => '3'
  | 4 => '4'
  | 5 => '5'
  | 6 => '6'
  | 7 => '7'
  | 8 => '8'
  | 9 => '9'
  | _ => '0'

/-- The base-ten digit values of a natural number, most significant
first. -/
def natDigits (n : Nat) : List Nat :=
  if n < 10 then [n]
  else natDigits (n / 10) ++ [n % 10]
decreasing_by exact Nat.div_lt_self (by omega) (by omega)

/-- Decimal rendering of a natural number, as `json.dumps` prints it. -/
def natRepr (n : Nat) : List Char := (natDigits n).map jdigit

/-- Decimal rendering of an integer, as `json.dumps` prints it. -/
def intRepr (i : Int) : List Char :=
  if i < 0 then '-' :: natRepr i.natAbs else natRepr i.toNat

/-- Serialization of one JSON scalar value. -/
def dumpVal : JVal → List Char
  | JVal.s str => '"' :: escStr str ++ ['"']
  | JVal.i int => intRepr int

/-- Serialization of one `"key": value` object entry, with the `": "`
separator `json.dumps` uses by default. -/
def dumpEntry (k : List Char) (v : JVal) : List Char :=
  '"' :: escStr k ++ '"' :: ':' :: ' ' :: dumpVal v

/-- Serialization of the entries of an object, joined by the `", "`
separator `json.dumps` uses by default. -/
def dumpEntries : Record → List Char
  | [] => []
  | [(k, v)] => dumpEntry k v
  | (k, v) :: e :: rest => dumpEntry k v ++ ',' :: ' ' :: dumpEntries (e :: rest)

/-- Embedding of `json.dumps` on a flat record: the braced, comma-joined
object text written by `DB.insert` (`sec3_data.py` line 83). -/
def dumps (r : Record) : List Char := '{' :: dumpEntries r ++ ['}']

/-- Inverse of `escChar` on the character following a backslash. -/
def unescChar (c : Char) : Option Char :=
  if c = '\\' then some '\\'
  else if c = '"' then some '"'
  else if c = 'n' then some '\n'
  else if c = 'r' then some '\r'
  else if c = 't' then some '\t'
  else none

/-- Fuelled worker for `parseStr`: parses a JSON string body up to and
including the closing quote, returning the unescaped body and the
remaining input; one unit of fuel is spent per produced character. -/
def parseStrBodyF : Nat → List Char → Option (List Char × List Char)
  | 0, _ => none
  | _ + 1, [] => none
  | fuel + 1, c :: cs =>
    if c = '\\' then
      match cs with
      | [] => none
      | e :: cs2 =>
        match unescChar e with
        | none => none
        | some u =>
          match parseStrBodyF fuel cs2 with
          | none => none
          | some (s, rest) => some (u :: s, rest)
    else if c = '"' then some ([], cs)
    else
      match parseStrBodyF fuel cs with
      | none => none
      | some (s, rest) => some (c :: s, rest)

/-- Parser for a JSON string body up to and including the closing quote;
the fuel is one more than the input length, which always suffices. -/
def parseStr (cs : List Char) : Option (List Char × List Char) :=
  parseStrBodyF (cs.length + 1) cs

/-- The digit value of a decimal digit character. -/
def digitVal (c : Char) : Option Nat :=
  if c = '0' then some 0
  else if c = '1' then some 1
  else if c = '2' then some 2
  else if c = '3' then some 3
  else if c = '4' then some 4
  else if c = '5' then some 5
  else if c = '6' then some 6
  else if c = '7' then some 7
  else if c = '8' then some 8
  else if c = '9' then some 9
  else none

/-- Splits a maximal leading run of decimal digits off the input. -/
def takeDigits : List Char → (List Nat × List Char)
  | [] => ([], [])
  | c :: cs =>
    match digitVal c with
    | some d =>
      match takeDigits cs with
      | (ds, rest) => (d :: ds, rest)
    | none => ([], c :: cs)

/-- The natural number denoted by a digit-value list, most significant
first, on top of an accumulator. -/
def digitsToNat (acc : Nat) : List Nat → Nat
  | [] => acc
  | d :: ds => digitsToNat (acc * 10 + d) ds

/-- Parser for a non-empty run of decimal digits. -/
def parseNat (cs : List Char) : Option (Nat × List Char) :=
  match takeDigits cs with
  | ([], _) => none
  | (ds, rest) => some (digitsToNat 0 ds, rest)

/-- Parser for one JSON scalar value: a quoted string, or an optionally
negated decimal integer. -/
def parseVal (cs : List Char) : Option (JVal × List Char) :=
  match cs with
  | [] => none
  | c :: cs2 =>
    if c = '"' then
      match parseStr cs2 with
      | none => none
      | some (s, rest) => some (JVal.s s, rest)
    else if c = '-' then
      match parseNat cs2 with
      | none => none
      | some (n, rest) => some (JVal.i (-(n : Int)), rest)
    else
      match parseNat (c :: cs2) with
      | none => none
      | some (n, rest) => some (JVal.i (n : Int), rest)

/-- Parser for a non-empty `"key": value` entry sequence of an object,
consuming the closing brace; the fuel bounds the number of entries. -/
def parsePairs : Nat → List Char → Option (Record × List Char)
  | 0, _ => none
  | _ + 1, [] => none
  | fuel + 1, c :: cs =>
    if c = '"' then
      match parseStr cs with
      | none => none
      | some (k, rest1) =>
        match rest1 with
        | ':' :: ' ' :: rest2 =>
          match parseVal rest2 with
          | none => none
          | some (v, rest3) =>
            match rest3 with
            | [] => none
            | d :: rest4 =>
              if d = '}' then some ([(k, v)], rest4)
              else if d = ',' then
                match rest4 with
                | ' ' :: rest5 =>
                  match parsePairs fuel rest5 with
                  | none => none
                  | some (r, rest6) => some ((k, v) :: r, rest6)
                | _ => none
              else none
        | _ => none
    else none

/-- Embedding of `json.loads` on one stored line, for the object texts the
serializer `dumps` produces: a brace-delimited record of scalar fields.
A failure corresponds to `json.loads` raising a decode error. -/
def loads (cs : List Char) : Option Record :=
  match cs with
  | [] => none
  | c :: cs2 =>
    if c = '{' then
      match cs2 with
      | [] => none
      | d :: cs3 =>
        if d = '}' then (if cs3 = [] then some [] else none)
        else
          match parsePairs (cs2.length + 1) cs2 with
          | none => none
          | some (r, rest) => if rest = [] then some r else none
    else none

/-- Splits off the longest newline-free head of the input; the remainder
starts at the first newline when one exists. -/
def breakLine : List Char → (List Char × List Char)
  | [] => ([], [])
  | c :: cs =>
    if c = '\n' then ([], c :: cs)
    else
      match breakLine cs with
      | (l, r) => (c :: l, r)

/-- Fuelled worker for `linesOf`. -/
def linesOfAux : Nat → List Char → List (List Char)
  | 0, _ => []
  | _ + 1, [] => []
  | fuel + 1, c :: cs =>
    match breakLine (c :: cs) with
    | (l, []) => [l]
    | (l, _ :: r2) => l :: linesOfAux fuel r2

/-- Embedding of Python text-file line iteration (`for line in self.db`,
`sec3_data.py` line 97) on a file content: the newline-separated lines, a
trailing newline producing no extra empty line; the newline characters
themselves are stripped (`json.loads` ignores the trailing whitespace
Python would keep on each line). -/
def linesOf (cs : List Char) : List (List Char) := linesOfAux (cs.length + 1) cs

/-- A file content built of chunks each followed by one newline, as the
append-only store builds its backing file. -/
def joinNL (chunks : List (List Char)) : List Char :=
  chunks.foldr (fun l acc => l ++ '\n' :: acc) []

/-- An open store of the `DB` class (`sec3_data.py` lines 53-99): the file
mode given to `open` and the file content. -/
structure DBFile where
  mode : Char
  content : List Char

/-- Embedding of `DB.insert` (`sec3_data.py` lines 81-83): append the
serialized record and a newline to the backing file. -/
def DB.insert (db : DBFile) (r : Record) : DBFile :=
  { db with content := db.content ++ dumps r ++ ['\n'] }

/-- Embedding of `DB.commit` (`sec3_data.py` lines 85-87): close the file;
the persisted content is unchanged. -/
def DB.commit (db : DBFile) : DBFile := db

/-- Embedding of `DB.loop` (`sec3_data.py` lines 94-99): assert the store
was opened in read mode (`none` models the assertion failure), then parse
each line of the file in order. -/
def DB.loop (db : DBFile) : Option (List (Option Record)) :=
  if db.mode = 'r' then some ((linesOf db.content).map loads) else none

/-- Association-list embedding of a Python dict whose keys and values are
parsed JSON scalars, in insertion order. -/
abbrev JMap := List (JVal × JVal)

/-- Embedding of a Python dict assignment `d[k] = v`: overwrite in place
when the key is present, append otherwise. -/
def pyDict (m : JMap) (k v : JVal) : JMap :=
  if m.any (fun p => p.1 == k) then
    m.map (fun p => if p.1 == k then (k, v) else p)
  else m ++ [(k, v)]

/-- Embedding of a Python dict subscript `line[key]` on a parsed record;
the last binding of a key wins, as in a dict built by `json.loads`.
`none` is a KeyError. -/
def jfind (r : Record) (key : List Char) : Option JVal :=
  r.foldl (fun acc p => if p.1 = key then some p.2 else acc) none

/-- The `except KeyError` handler of `reconstruct_ids` (`sec3_data.py`
line 113): `user_ids[line['id']] = line['label']`, re-raising when
`label` or `id` is itself absent. -/
def rid_fallback (users queries : JMap) (r : Record) : Except Unit (JMap × JMap) :=
  match jfind r (("label").data) with
  | none => Except.error ()
  | some lab =>
    match jfind r (("id").data) with
    | none => Except.error ()
    | some i => Except.ok (pyDict users i lab, queries)

/-- The loop body of `reconstruct_ids` (`sec3_data.py` lines 109-113) for
one record: try `user_ids[line['user_id']] = line['label']` then
`query_ids[line['tweet_id']] = line['query']`; the first missing field
raises a KeyError handled by `rid_fallback`.  Python evaluates the
right-hand side before the subscript target, and the first assignment's
effect survives a KeyError raised by the second. -/
def rid_step (maps : JMap × JMap) (r : Record) : Except Unit (JMap × JMap) :=
  match jfind r (("label").data) with
  | none => rid_fallback maps.1 maps.2 r
  | some lab =>
    match jfind r (("user_id").data) with
    | none => rid_fallback maps.1 maps.2 r
    | some uid =>
      let users := pyDict maps.1 uid lab
      match jfind r (("query").data) with
      | none => rid_fallback users maps.2 r
      | some qv =>
        match jfind r (("tweet_id").data) with
        | none => rid_fallback users maps.2 r
        | some tid => Except.ok (users, pyDict maps.2 tid qv)

/-- The record walk of `reconstruct_ids`: run `rid_step` over the parsed
lines in order; a line `json.loads` cannot parse, or an unhandled
KeyError, aborts the reconstruction. -/
def parse_ids : JMap × JMap → List (List Char) → Except Unit (JMap × JMap)
  | maps, [] => Except.ok maps
  | maps, line :: rest =>
    match loads line with
    | none => Except.error ()
    | some r =>
      match rid_step maps r with
      | Except.error e => Except.error e
      | Except.ok maps2 => parse_ids maps2 rest

/-- Embedding of `reconstruct_ids` (`sec3_data.py` lines 102-114).
`fix_content` and `raw_content` are the backing files of the corrected
store (`db_id + '_fix'`) and the raw store (`db_id`).  The code opens the
corrected store and tests `if not uds.db.read()`: `read()` returns the
whole content and leaves that file handle at end-of-file.  When the
corrected store is empty, the code rebinds `uds` to a freshly opened raw
store whose full content is still ahead of its handle; when it is
non-empty, the code keeps the already-consumed corrected handle, so the
following `uds.loop()` iterates over what remains after `read()` — which
is nothing (`consumed_fix`). -/
def reconstruct_ids (fix_content raw_content : List Char) :
    Except Unit (JMap × JMap) :=
  let consumed_fix : List Char := []
  let src := if fix_content = [] then raw_content else consumed_fix
  parse_ids ([], []) (linesOf src)

/-- A concrete corrected-store record exhibiting the `reconstruct_ids`
divergence: user 1 labelled `"f"`, tweet 2 matching query `"m a girl"`. -/
def fixRecord : Record :=
  [(("user_id").data, JVal.i 1), (("label").data, JVal.s (("f").data)),
   (("tweet_id").data, JVal.i 2), (("query").data, JVal.s (("m a girl").data))]

/-- A concrete raw-store record with different content from `fixRecord`. -/
def rawRecord : Record :=
  [(("user_id").data, JVal.i 3), (("label").data, JVal.s (("m").data)),
   (("tweet_id").data, JVal.i 4), (("query").data, JVal.s (("m a boy").data))]

/-- C3 counterexample: with query `"a girl"`, stored label `"f"`, empty
`filter` and `flip_any`, `flip_prefix = [" guess "]`, and text
`"i guess i'm a girl now"`, `flip_label` returns the unflipped label
`"f"`, not the `"m"` the claim states: the string
`" guess a girl"` (flip_prefix entry immediately followed by the query)
does not occur in the text. -/
theorem flip_label_c3_counterexample :
    flip_label ⟨[], [], [(" guess ").data]⟩ [(1, ("f").data)]
        [(2, ("a girl").data)] 1 2 (("i guess i'm a girl now").data)
      = Except.ok (some (("f").data)) ∧ ("f").data ≠ ("m").data :=
  ⟨rfl, by decide⟩

/-- C3 amended: on the stated input `flip_label` keeps the stored label
`"f"` because a `flip_prefix` entry must immediately precede the query in
the text and `" guess a girl"` does not occur in
`"i guess i'm a girl now"`; for the text `"i guess a girl now"`, where
`" guess "` does immediately precede `"a girl"`, the label is flipped to
`"m"`. -/
theorem flip_label_c3_amended :
    flip_label ⟨[], [], [(" guess ").data]⟩ [(1, ("f").data)]
        [(2, ("a girl").data)] 1 2 (("i guess i'm a girl now").data)
      = Except.ok (some (("f").data)) ∧
    flip_label ⟨[], [], [(" guess ").data]⟩ [(1, ("f").data)]
        [(2, ("a girl").data)] 1 2 (("i guess a girl now").data)
      = Except.ok (some (("m").data)) :=
  ⟨rfl, rfl⟩

/-- C4 counterexample: with query `"a girl"`, stored label `"f"`, empty
`filter`, `flip_any = ["according to"]`, and text
`"according to him i'm a girl"`, `flip_label` returns the unflipped label
`"f"`, not the `"m"` the claim states: the query occurrence ends the text,
so it is not followed by any of the boundary characters of `query_tails`
and no flip branch is reached. -/
theorem flip_label_c4_counterexample :
    flip_label ⟨[], [("according to").data], []⟩ [(1, ("f").data)]
        [(2, ("a girl").data)] 1 2 (("according to him i'm a girl").data)
      = Except.ok (some (("f").data)) ∧ ("f").data ≠ ("m").data :=
  ⟨rfl, by decide⟩

/-- C4 amended: on the stated input `flip_label` keeps the stored label
`"f"` because the boundary check requires the query to be immediately
followed by one of `" . ! , : ;"` and `"a girl"` ends the text; for the
text `"according to him i'm a girl "` (trailing space) the boundary check
passes and the `flip_any` entry `"according to"` flips the label to
`"m"`. -/
theorem flip_label_c4_amended :
    flip_label ⟨[], [("according to").data], []⟩ [(1, ("f").data)]
        [(2, ("a girl").data)] 1 2 (("according to him i'm a girl").data)
      = Except.ok (some (("f").data)) ∧
    flip_label ⟨[], [("according to").data], []⟩ [(1, ("f").data)]
        [(2, ("a girl").data)] 1 2 (("according to him i'm a girl ").data)
      = Except.ok (some (("m").data)) :=
  ⟨rfl, rfl⟩

/-- C5 counterexample: the claim says a call with a missing `user_id` or
`tweet_id` key propagates a missing-key error regardless of the text's
content; but when a `filter` substring occurs in the text, `flip_label`
returns `Except.ok none` before ever touching the maps, even though both
maps are empty here. -/
theorem flip_label_c5_counterexample :
    flip_label ⟨[("rt ").data], [], []⟩ [] [] 1 2 (("rt i'm a girl ").data)
      = Except.ok none ∧
    lookupN [] 1 = none ∧
    (Except.ok none : Except Unit (Option (List Char))) ≠ Except.error () :=
  ⟨rfl, rfl, by simp⟩

/-- C5 amended: provided no `filter` substring occurs in the text, a call
to `flip_label` in which `uid` is not a key of the user-to-label map or
`tid` is not a key of the tweet-to-query map propagates a missing-key
error rather than returning any default value. -/
theorem flip_label_c5_amended :
    ∀ (ru : Rules) (u q : List (Nat × List Char)) (uid tid : Nat)
      (text : List Char),
    ru.filter.any (fun it => occurs it text) = false →
    lookupN u uid = none ∨ lookupN q tid = none →
    flip_label ru u q uid tid text = Except.error () := by
  intro ru u q uid tid text hf h
  rcases h with h | h
  · simp [flip_label, hf, h]
  · cases hu : lookupN u uid with
    | none => simp [flip_label, hf, hu]
    | some label => simp [flip_label, hf, hu, h]

/-- C5 witness: the amended theorem applied at a concrete input. -/
theorem flip_label_c5_witness :
    flip_label ⟨[], [], []⟩ [] [] 0 0 [] = Except.error () :=
  flip_label_c5_amended ⟨[], [], []⟩ [] [] 0 0 [] rfl (Or.inl rfl)

/-- C7: when no `filter` substring occurs, both ids are mapped, the
boundary-anchored query is present, and both a `flip_any` substring
occurs in the text and a `flip_prefix` substring immediately precedes the
query, `flip_label` returns exactly one application of the flip to the
stored label: the `flip_any` branch short-circuits the `flip_prefix`
branch, so flips never compound. -/
theorem flip_label_c7_single_flip :
    ∀ (ru : Rules) (u q : List (Nat × List Char)) (uid tid : Nat)
      (text label qry : List Char),
    ru.filter.any (fun it => occurs it text) = false →
    lookupN u uid = some label →
    lookupN q tid = some qry →
    query_tails.any (fun affix => occurs (qry ++ affix) text) = true →
    ru.flip_any.any (fun f => occurs f text) = true →
    ru.flip_prefix.any (fun p => occurs (p ++ qry) text) = true →
    flip_label ru u q uid tid text = Except.ok (some (flipStr label)) := by
  intro ru u q uid tid text label qry hf hu hq ht ha hp
  simp [flip_label, hf, hu, hq, ht, ha]

/-- C7 witness: a text matching a `flip_any` entry, a `flip_prefix` entry
immediately before the query, and the boundary-anchored query; the stored
label `"f"` is flipped exactly once, to `"m"`. -/
theorem flip_label_c7_witness :
    flip_label ⟨[], [("according to").data], [(" guess ").data]⟩
        [(1, ("f").data)] [(2, ("a girl").data)] 1 2
        (("according to him i guess a girl now").data)
      = Except.ok (some (("m").data)) :=
  flip_label_c7_single_flip ⟨[], [("according to").data], [(" guess ").data]⟩
    [(1, ("f").data)] [(2, ("a girl").data)] 1 2
    (("according to him i guess a girl now").data) (("f").data)
    (("a girl").data) rfl rfl rfl rfl rfl rfl

/-- C10: when a flip rule triggers in `flip_label`, the stored label is
sent through `flipStr`, which maps `"f"` to `"m"` and every other label
value (for example `"M"`, `"F"`, or any unexpected string) to `"f"`; in
particular `flipStr` is an involution exactly on the labels `"f"` and
`"m"`. -/
theorem flip_label_c10_flip_behaviour :
    ∀ (ru : Rules) (u q : List (Nat × List Char)) (uid tid : Nat)
      (text label qry : List Char),
    ru.filter.any (fun it => occurs it text) = false →
    lookupN u uid = some label →
    lookupN q tid = some qry →
    query_tails.any (fun affix => occurs (qry ++ affix) text) = true →
    (ru.flip_any.any (fun f => occurs f text) = true ∨
      ru.flip_prefix.any (fun p => occurs (p ++ qry) text) = true) →
    flip_label ru u q uid tid text = Except.ok (some (flipStr label)) ∧
    flipStr (("f").data) = ("m").data ∧
    (label ≠ ("f").data → flipStr label = ("f").data) ∧
    (flipStr (flipStr label) = label ↔
      (label = ("f").data ∨ label = ("m").data)) := by
  intro ru u q uid tid text label qry hf hu hq ht htrig
  refine ⟨?_, rfl, ?_, ?_⟩
  · cases ha : ru.flip_any.any (fun f => occurs f text) with
    | true => simp [flip_label, hf, hu, hq, ht, ha]
    | false =>
      rcases htrig with h | h
      · rw [ha] at h; exact absurd h (by simp)
      · simp [flip_label, hf, hu, hq, ht, ha, h]
  · intro h
    simp [flipStr, h]
  · by_cases hlf : label = ("f").data
    · subst hlf; decide
    · by_cases hlm : label = ("m").data
      · subst hlm; decide
      · have h1 : flipStr label = ("f").data := by simp [flipStr, hlf]
        rw [h1]
        have h2 : flipStr (("f").data) = ("m").data := rfl
        rw [h2]
        constructor
        · intro h3; exact absurd h3.symm hlm
        · intro h3; rcases h3 with h3 | h3 <;> exact absurd h3 (by assumption)

/-- C10 witness: the theorem applied at a concrete unexpected stored label
`"M"`: a triggered flip sends it to `"f"`. -/
theorem flip_label_c10_witness :
    flip_label ⟨[], [("according to").data], []⟩ [(1, ("M").data)]
        [(2, ("a girl").data)] 1 2 (("according to a girl yes").data)
      = Except.ok (some (("f").data)) ∧ flipStr (("M").data) = ("f").data := by
  have h := flip_label_c10_flip_behaviour ⟨[], [("according to").data], []⟩
    [(1, ("M").data)] [(2, ("a girl").data)] 1 2
    (("according to a girl yes").data) (("M").data) (("a girl").data)
    rfl rfl rfl rfl (Or.inl rfl)
  exact ⟨h.1, h.2.2.1 (by decide)⟩

/-- C6 counterexample: at `messages` granularity with the single configured
query `"A girl"` and message text `"this is a girl here"`, the query is a
case-insensitive substring of the text, yet the code keeps the message in
the corrected store: only the text is lower-cased, the query is compared
verbatim, so the omission the claim requires does not happen. -/
theorem remove_query_tweets_c6_counterexample :
    remove_query_tweets [("A girl").data] [(1, ("f").data)] []
        (("messages").data) [⟨1, 10, ("this is a girl here").data⟩]
      = Except.ok [⟨1, 10, ("this is a girl here").data, ("f").data⟩] ∧
    occurs (lower (("A girl").data)) (lower (("this is a girl here").data)) = true :=
  ⟨rfl, rfl⟩

/-- C6 amended: at `messages` granularity, for message records whose users
are all in the user-to-label map, `remove_query_tweets` omits a message
from the corrected message store if and only if some configured query
string, taken verbatim, is a substring of the lower-cased message text:
the decision is insensitive to the letter case of the text but sensitive
to the letter case of the configured query. -/
theorem remove_query_tweets_c6_amended :
    ∀ (queries : List (List Char)) (u q : List (Nat × List Char))
      (msgs : List MsgRecord),
    (∀ m ∈ msgs, (lookupN u m.user_id).isSome = true) →
    remove_query_tweets queries u q (("messages").data) msgs
      = Except.ok (msgs.filterMap (fun m =>
          match lookupN u m.user_id with
          | some lab =>
            if queries.any (fun query => occurs query (lower m.tweet_text)) then
              none
            else some ⟨m.user_id, m.tweet_id, m.tweet_text, lab⟩
          | none => none)) := by
  intro queries u q msgs
  induction msgs with
  | nil => intro h; rfl
  | cons m ms ih =>
    intro h
    have hm := h m (List.mem_cons_self _ _)
    have hrest : ∀ x ∈ ms, (lookupN u x.user_id).isSome = true :=
      fun x hx => h x (List.mem_cons_of_mem _ hx)
    cases hu : lookupN u m.user_id with
    | none => rw [hu] at hm; simp at hm
    | some lab =>
      by_cases hq : queries.any (fun query => occurs query (lower m.tweet_text)) = true
      · simp only [remove_query_tweets, rqt_step, hu, hq, List.filterMap_cons,
          if_pos rfl, if_true, ih hrest]
      · have hq' : queries.any (fun query => occurs query (lower m.tweet_text)) = false := by
          simpa using hq
        simp only [remove_query_tweets, rqt_step, hu, hq', List.filterMap_cons,
          if_pos rfl, if_true, Bool.false_eq_true, if_false, ih hrest]

/-- C6 witness: the amended theorem applied to two concrete messages; the
one whose text contains the query `"a girl"` is omitted, the other is kept
with its joined label. -/
theorem remove_query_tweets_c6_witness :
    remove_query_tweets [("a girl").data] [(1, ("f").data), (2, ("m").data)]
        [] (("messages").data)
        [⟨1, 5, ("hello a girl here").data⟩, ⟨2, 6, ("hello world").data⟩]
      = Except.ok [⟨2, 6, ("hello world").data, ("m").data⟩] := by
  have h := remove_query_tweets_c6_amended [("a girl").data]
    [(1, ("f").data), (2, ("m").data)] []
    [⟨1, 5, ("hello a girl here").data⟩, ⟨2, 6, ("hello world").data⟩]
    (by decide)
  exact h

/-- C9 counterexample: a hit record whose stored distant label is the empty
string, whose text matches no filter substring (the filter set is empty),
but whose text triggers the `flip_any` rule: the empty label is flipped to
`"f"` and the record is appended to the corrected store, so it is not
silently dropped as the claim states. -/
theorem correct_query_tweets_c9_counterexample :
    correct_query_tweets ⟨[], [("according to").data], []⟩ [(1, [])]
        [(2, ("a girl").data)]
        [⟨1, 2, ("according to him a girl is here").data, [], ("a girl").data⟩]
      = Except.ok
          [⟨1, 2, ("according to him a girl is here").data, ("f").data,
            ("a girl").data⟩] ∧
    lookupN [(1, [])] 1 = some [] ∧
    (Rules.mk [] [("according to").data] []).filter.any
        (fun it => occurs it (("according to him a girl is here").data)) = false :=
  ⟨rfl, rfl, rfl⟩

/-- C9 amended: `correct_query_tweets` appends a corrected record if and
only if `flip_label` returns a truthy value (a label that is neither
`none` nor the empty string); consequently a hit record whose stored
distant label is the empty string is silently dropped, indistinguishably
from a filter veto, exactly when additionally no flip rule fires on its
text — when a flip rule does fire the empty label is flipped to `"f"` and
the record is kept. -/
theorem correct_query_tweets_c9_amended :
    (∀ (ru : Rules) (u q : List (Nat × List Char)) (h : HitRecord)
        (res : Option (List Char)),
      flip_label ru u q h.user_id h.tweet_id (lower h.tweet_text)
          = Except.ok res →
      correct_query_tweets ru u q [h]
        = Except.ok (match res with
            | some (c :: cs) => [{ h with label := c :: cs }]
            | _ => [])) ∧
    (∀ (ru : Rules) (u q : List (Nat × List Char)) (h : HitRecord)
        (qry : List Char),
      ru.filter.any (fun it => occurs it (lower h.tweet_text)) = false →
      lookupN u h.user_id = some [] →
      lookupN q h.tweet_id = some qry →
      ru.flip_any.any (fun f => occurs f (lower h.tweet_text)) = false →
      ru.flip_prefix.any (fun p => occurs (p ++ qry) (lower h.tweet_text)) = false →
      correct_query_tweets ru u q [h] = Except.ok []) := by
  constructor
  · intro ru u q h res hres
    cases res with
    | none => simp [correct_query_tweets, hres]
    | some l =>
      cases l with
      | nil => simp [correct_query_tweets, hres]
      | cons c cs => simp [correct_query_tweets, hres]
  · intro ru u q h qry hf hu hq ha hp
    have hres : flip_label ru u q h.user_id h.tweet_id (lower h.tweet_text)
        = Except.ok (some []) := by
      by_cases ht : query_tails.any
          (fun affix => occurs (qry ++ affix) (lower h.tweet_text)) = true
      · simp [flip_label, hf, hu, hq, ht, ha, hp]
      · have ht' : query_tails.any
            (fun affix => occurs (qry ++ affix) (lower h.tweet_text)) = false := by
          simpa using ht
        simp [flip_label, hf, hu, hq, ht']
    simp [correct_query_tweets, hres]

/-- C9 witness: the amended theorem applied at two concrete single-record
stores: a record with stored label `"f"` and untriggered rules is kept
unchanged, and a record with empty stored label and untriggered rules is
dropped. -/
theorem correct_query_tweets_c9_witness :
    correct_query_tweets ⟨[], [], []⟩ [(1, ("f").data)] [(2, ("x").data)]
        [⟨1, 2, ("hello").data, ("f").data, ("x").data⟩]
      = Except.ok [⟨1, 2, ("hello").data, ("f").data, ("x").data⟩] ∧
    correct_query_tweets ⟨[], [], []⟩ [(1, [])] [(2, ("x").data)]
        [⟨1, 2, ("hello").data, [], ("x").data⟩]
      = Except.ok [] := by
  constructor
  · exact correct_query_tweets_c9_amended.1 ⟨[], [], []⟩ [(1, ("f").data)]
      [(2, ("x").data)] ⟨1, 2, ("hello").data, ("f").data, ("x").data⟩
      (some (("f").data)) rfl
  · exact correct_query_tweets_c9_amended.2 ⟨[], [], []⟩ [(1, [])]
      [(2, ("x").data)] ⟨1, 2, ("hello").data, [], ("x").data⟩ (("x").data)
      rfl rfl rfl rfl rfl

/-- C2: evaluation at the failing input.  For a batch file of one line and
`test_size = 1/5` we have `round(1 × 1/5) = 0`, and the claim says the
test file receives no data lines; but `batches[-0:]` is the whole list, so
the code writes the line to both the train and the test file. -/
theorem batches_to_sets_c2_bug :
    batches_to_sets [("line one").data] 1 5
      = ([("line one").data], [("line one").data]) ∧
    pyRoundHalfEven (List.length [("line one").data] * 1) 5 = 0 ∧
    ([("line one").data] : List (List Char)) ≠ [] :=
  ⟨rfl, rfl, by simp⟩

/-- Every digit character produced by `jdigit` is one of the ten decimal
digit characters. -/
theorem jdigit_mem (d : Nat) :
    jdigit d ∈ ['0', '1', '2', '3', '4', '5', '6', '7', '8', '9'] := by
  unfold jdigit
  split <;> decide

/-- A digit character is not a newline, a quote, or a minus sign. -/
theorem jdigit_ne (d : Nat) :
    jdigit d ≠ '\n' ∧ jdigit d ≠ '"' ∧ jdigit d ≠ '-' := by
  have h := jdigit_mem d
  refine ⟨?_, ?_, ?_⟩ <;> intro he <;> rw [he] at h <;> exact absurd h (by decide)

/-- Parsing the digit character of a digit value below ten recovers the
value. -/
theorem digitVal_jdigit {d : Nat} (h : d < 10) : digitVal (jdigit d) = some d := by
  interval_cases d <;> decide

/-- Appending one digit multiplies the accumulated value by ten. -/
theorem digitsToNat_append (acc : Nat) (ds : List Nat) (d : Nat) :
    digitsToNat acc (ds ++ [d]) = digitsToNat acc ds * 10 + d := by
  induction ds generalizing acc with
  | nil => simp [digitsToNat]
  | cons e es ih => simp [digitsToNat, ih]

/-- Every digit value of `natDigits` is below ten. -/
theorem natDigits_lt (n : Nat) : ∀ d ∈ natDigits n, d < 10 := by
  induction n using Nat.strong_induction_on with
  | _ n ih =>
    intro d hd
    by_cases h : n < 10
    · rw [natDigits] at hd
      simp [h] at hd
      omega
    · rw [natDigits] at hd
      simp [h, List.mem_append] at hd
      rcases hd with hd | hd
      · exact ih (n / 10) (Nat.div_lt_self (by omega) (by omega)) d hd
      · omega

/-- `natDigits` never returns an empty list. -/
theorem natDigits_ne_nil (n : Nat) : natDigits n ≠ [] := by
  rw [natDigits]
  split <;> simp

/-- Reading back the digit values of `natDigits` recovers the number. -/
theorem digitsToNat_natDigits (n : Nat) : digitsToNat 0 (natDigits n) = n := by
  induction n using Nat.strong_induction_on with
  | _ n ih =>
    by_cases h : n < 10
    · rw [natDigits]
      simp [h, digitsToNat]
    · rw [natDigits]
      simp only [h, if_false]
      rw [digitsToNat_append, ih (n / 10) (Nat.div_lt_self (by omega) (by omega))]
      omega

/-- `takeDigits` splits a rendered digit run off any remainder that does
not begin with a digit character. -/
theorem takeDigits_append (ds : List Nat) (rest : List Char)
    (hds : ∀ d ∈ ds, d < 10)
    (hrest : ∀ c, rest.head? = some c → digitVal c = none) :
    takeDigits (ds.map jdigit ++ rest) = (ds, rest) := by
  induction ds with
  | nil =>
    simp only [List.map_nil, List.nil_append]
    cases rest with
    | nil => rfl
    | cons c cs =>
      have hc := hrest c rfl
      simp [takeDigits, hc]
  | cons d ds ih =>
    have hd : d < 10 := hds d (by simp)
    have hdv := digitVal_jdigit hd
    have ih2 := ih (fun x hx => hds x (List.mem_cons_of_mem _ hx))
    simp [takeDigits, hdv, ih2]

/-- `parseNat` inverts `natRepr` in front of any remainder that does not
begin with a digit character. -/
theorem parseNat_natRepr (n : Nat) (rest : List Char)
    (hrest : ∀ c, rest.head? = some c → digitVal c = none) :
    parseNat (natRepr n ++ rest) = some (n, rest) := by
  have htd : takeDigits ((natDigits n).map jdigit ++ rest) = (natDigits n, rest) :=
    takeDigits_append _ _ (natDigits_lt n) hrest
  unfold parseNat natRepr
  rw [htd]
  cases hnd : natDigits n with
  | nil => exact absurd hnd (natDigits_ne_nil n)
  | cons d ds =>
    show some (digitsToNat 0 (d :: ds), rest) = some (n, rest)
    rw [← hnd, digitsToNat_natDigits]

/-- `escChar` never emits a newline character. -/
theorem escChar_no_newline (c : Char) : '\n' ∉ escChar c := by
  unfold escChar
  split_ifs with h1 h2 h3 h4 h5
  · decide
  · decide
  · decide
  · decide
  · decide
  · simp only [List.mem_singleton]
    intro h
    exact h3 h.symm

/-- `escStr` never emits a newline character. -/
theorem escStr_no_newline (s : List Char) : '\n' ∉ escStr s := by
  induction s with
  | nil => simp [escStr]
  | cons c cs ih =>
    simp only [escStr, List.mem_append]
    rintro (h | h)
    · exact escChar_no_newline c h
    · exact ih h

/-- Escaping never shortens a string. -/
theorem escStr_length (s : List Char) : s.length ≤ (escStr s).length := by
  induction s with
  | nil => simp [escStr]
  | cons c cs ih =>
    have h1 : 1 ≤ (escChar c).length := by
      unfold escChar
      split_ifs <;> simp
    simp only [escStr, List.length_append, List.length_cons]
    omega

/-- The fuelled string-body parser inverts `escStr` followed by the
closing quote whenever the fuel exceeds the body length. -/
theorem parseStrBodyF_escStr (s : List Char) :
    ∀ (fuel : Nat) (rest : List Char), s.length < fuel →
    parseStrBodyF fuel (escStr s ++ '"' :: rest) = some (s, rest) := by
  induction s with
  | nil =>
    intro fuel rest hf
    cases fuel with
    | zero => omega
    | succ f => rfl
  | cons c cs ih =>
    intro fuel rest hf
    cases fuel with
    | zero => omega
    | succ f =>
      have ihf := ih f rest (by simp at hf; omega)
      by_cases h1 : c = '\\'
      · subst h1; simp [escStr, escChar, parseStrBodyF, unescChar, ihf]
      · by_cases h2 : c = '"'
        · subst h2; simp [escStr, escChar, parseStrBodyF, unescChar, ihf]
        · by_cases h3 : c = '\n'
          · subst h3; simp [escStr, escChar, parseStrBodyF, unescChar, ihf]
          · by_cases h4 : c = '\r'
            · subst h4; simp [escStr, escChar, parseStrBodyF, unescChar, ihf]
            · by_cases h5 : c = '\t'
              · subst h5; simp [escStr, escChar, parseStrBodyF, unescChar, ihf]
              · have hesc : escChar c = [c] := by
                  unfold escChar
                  rw [if_neg h1, if_neg h2, if_neg h3, if_neg h4, if_neg h5]
                simp only [escStr, hesc, List.singleton_append, List.cons_append]
                simp [parseStrBodyF, h1, h2, ihf]

/-- `parseStr` inverts `escStr` followed by the closing quote. -/
theorem parseStr_escStr (s rest : List Char) :
    parseStr (escStr s ++ '"' :: rest) = some (s, rest) := by
  have hl := escStr_length s
  exact parseStrBodyF_escStr s _ rest
    (by simp only [List.length_append, List.length_cons]; omega)

/-- `parseVal` inverts `dumpVal` in front of any remainder that does not
begin with a digit character. -/
theorem parseVal_dumpVal (v : JVal) (rest : List Char)
    (hrest : ∀ c, rest.head? = some c → digitVal c = none) :
    parseVal (dumpVal v ++ rest) = some (v, rest) := by
  cases v with
  | s str =>
    have hshape : dumpVal (JVal.s str) ++ rest
        = '"' :: (escStr str ++ '"' :: rest) := by
      simp [dumpVal]
    rw [hshape]
    simp [parseVal, parseStr_escStr]
  | i int =>
    by_cases hneg : int < 0
    · have hshape : dumpVal (JVal.i int) ++ rest
          = '-' :: (natRepr int.natAbs ++ rest) := by
        simp [dumpVal, intRepr, hneg]
      rw [hshape]
      have hpn := parseNat_natRepr int.natAbs rest hrest
      simp only [parseVal, hpn]
      rw [if_neg (show ('-' : Char) = '"' → False by decide), if_pos trivial]
      simp only [Option.some.injEq, Prod.mk.injEq, JVal.i.injEq, and_true]
      omega
    · cases hnd : natDigits int.toNat with
      | nil => exact absurd hnd (natDigits_ne_nil _)
      | cons d ds =>
        have hshape : dumpVal (JVal.i int) ++ rest
            = jdigit d :: (List.map jdigit ds ++ rest) := by
          simp [dumpVal, intRepr, hneg, natRepr, hnd]
        rw [hshape]
        have hj := jdigit_ne d
        have hpn2 : parseNat (jdigit d :: (List.map jdigit ds ++ rest))
            = some (int.toNat, rest) := by
          have hpn := parseNat_natRepr int.toNat rest hrest
          simp only [natRepr, hnd, List.map_cons, List.cons_append] at hpn
          exact hpn
        simp only [parseVal]
        rw [if_neg hj.2.1, if_neg hj.2.2, hpn2]
        simp only [Option.some.injEq, Prod.mk.injEq, JVal.i.injEq, and_true]
        omega

/-- An entry list is never longer than its serialization. -/
theorem dumpEntries_length (r : Record) : r.length ≤ (dumpEntries r).length := by
  induction r with
  | nil => simp [dumpEntries]
  | cons e t ih =>
    obtain ⟨k, v⟩ := e
    cases t with
    | nil =>
      simp [dumpEntries, dumpEntry]
    | cons e2 t2 =>
      simp only [dumpEntries, List.length_append, List.length_cons] at *
      omega

/-- The fuelled pair parser inverts `dumpEntries` for a non-empty record,
consuming the closing brace, whenever the fuel is at least the number of
entries. -/
theorem parsePairs_dumpEntries (r : Record) :
    ∀ (fuel : Nat) (rest : List Char), r ≠ [] → r.length ≤ fuel →
    parsePairs fuel (dumpEntries r ++ '}' :: rest) = some (r, rest) := by
  induction r with
  | nil => intro fuel rest hne _; exact absurd rfl hne
  | cons e t ih =>
    obtain ⟨k, v⟩ := e
    intro fuel rest hne hf
    cases fuel with
    | zero => simp at hf
    | succ f =>
      cases t with
      | nil =>
        have hshape : dumpEntries [(k, v)] ++ '}' :: rest
            = '"' :: (escStr k ++ '"' :: ':' :: ' ' :: (dumpVal v ++ '}' :: rest)) := by
          simp [dumpEntries, dumpEntry]
        rw [hshape]
        have hstr := parseStr_escStr k (':' :: ' ' :: (dumpVal v ++ '}' :: rest))
        have hval := parseVal_dumpVal v ('}' :: rest)
          (by intro c hc; simp at hc; subst hc; decide)
        simp [parsePairs, hstr, hval]
      | cons e2 t2 =>
        have hshape : dumpEntries ((k, v) :: e2 :: t2) ++ '}' :: rest
            = '"' :: (escStr k ++ '"' :: ':' :: ' ' ::
                (dumpVal v ++ ',' :: ' ' :: (dumpEntries (e2 :: t2) ++ '}' :: rest))) := by
          simp [dumpEntries, dumpEntry]
        rw [hshape]
        have hstr := parseStr_escStr k
          (':' :: ' ' :: (dumpVal v ++ ',' :: ' ' :: (dumpEntries (e2 :: t2) ++ '}' :: rest)))
        have hval := parseVal_dumpVal v
          (',' :: ' ' :: (dumpEntries (e2 :: t2) ++ '}' :: rest))
          (by intro c hc; simp at hc; subst hc; decide)
        have hih := ih f rest (by simp) (by simp at hf ⊢; omega)
        simp [parsePairs, hstr, hval, hih]

/-- The record parser `loads` inverts the serializer `dumps`. -/
theorem loads_dumps (r : Record) : loads (dumps r) = some r := by
  cases r with
  | nil => rfl
  | cons e t =>
    obtain ⟨k, v⟩ := e
    have hhead : ∃ tl, dumpEntries ((k, v) :: t) = '"' :: tl := by
      cases t with
      | nil => exact ⟨escStr k ++ '"' :: ':' :: ' ' :: dumpVal v, rfl⟩
      | cons e2 t2 =>
        exact ⟨(escStr k ++ '"' :: ':' :: ' ' :: dumpVal v) ++
          ',' :: ' ' :: dumpEntries (e2 :: t2), rfl⟩
    obtain ⟨tl, htl⟩ := hhead
    have hlen := dumpEntries_length ((k, v) :: t)
    have hpp := parsePairs_dumpEntries ((k, v) :: t)
      ((dumpEntries ((k, v) :: t) ++ ['}']).length + 1) [] (by simp)
      (by simp only [List.length_append, List.length_cons] at *; omega)
    show loads ('{' :: (dumpEntries ((k, v) :: t) ++ ['}'])) = _
    rw [htl] at hpp ⊢
    rw [List.cons_append] at hpp ⊢
    simp only [loads]
    rw [if_pos trivial, if_neg (show ('"' : Char) = '}' → False by decide)]
    rw [hpp]
    rfl

/-- `natRepr` never emits a newline character. -/
theorem natRepr_no_newline (n : Nat) : '\n' ∉ natRepr n := by
  unfold natRepr
  intro h
  simp only [List.mem_map] at h
  obtain ⟨d, _, hd⟩ := h
  exact (jdigit_ne d).1 hd

/-- `intRepr` never emits a newline character. -/
theorem intRepr_no_newline (i : Int) : '\n' ∉ intRepr i := by
  unfold intRepr
  split_ifs with h
  · intro hm
    rcases List.mem_cons.mp hm with h1 | h1
    · exact absurd h1 (by decide)
    · exact natRepr_no_newline _ h1
  · exact natRepr_no_newline _

/-- `dumpVal` never emits a newline character. -/
theorem dumpVal_no_newline (v : JVal) : '\n' ∉ dumpVal v := by
  cases v with
  | s str =>
    simp only [dumpVal]
    intro h
    rcases List.mem_cons.mp h with h1 | h1
    · exact absurd h1 (by decide)
    · rcases List.mem_append.mp h1 with h2 | h2
      · exact escStr_no_newline str h2
      · exact absurd h2 (by decide)
  | i int => exact intRepr_no_newline int

/-- `dumpEntry` never emits a newline character. -/
theorem dumpEntry_no_newline (k : List Char) (v : JVal) : '\n' ∉ dumpEntry k v := by
  simp only [dumpEntry]
  intro h
  rcases List.mem_cons.mp h with h1 | h1
  · exact absurd h1 (by decide)
  · rcases List.mem_append.mp h1 with h2 | h2
    · exact escStr_no_newline k h2
    · rcases List.mem_cons.mp h2 with h3 | h3
      · exact absurd h3 (by decide)
      · rcases List.mem_cons.mp h3 with h4 | h4
        · exact absurd h4 (by decide)
        · rcases List.mem_cons.mp h4 with h5 | h5
          · exact absurd h5 (by decide)
          · exact dumpVal_no_newline v h5

/-- `dumpEntries` never emits a newline character. -/
theorem dumpEntries_no_newline (r : Record) : '\n' ∉ dumpEntries r := by
  induction r with
  | nil => simp [dumpEntries]
  | cons e t ih =>
    obtain ⟨k, v⟩ := e
    cases t with
    | nil => exact dumpEntry_no_newline k v
    | cons e2 t2 =>
      simp only [dumpEntries]
      intro h
      rcases List.mem_append.mp h with h1 | h1
      · exact dumpEntry_no_newline k v h1
      · rcases List.mem_cons.mp h1 with h2 | h2
        · exact absurd h2 (by decide)
        · rcases List.mem_cons.mp h2 with h3 | h3
          · exact absurd h3 (by decide)
          · exact ih h3

/-- `dumps` never emits a newline character, so each inserted record
occupies exactly one line of the store. -/
theorem dumps_no_newline (r : Record) : '\n' ∉ dumps r := by
  simp only [dumps]
  intro h
  rcases List.mem_cons.mp h with h1 | h1
  · exact absurd h1 (by decide)
  · rcases List.mem_append.mp h1 with h2 | h2
    · exact dumpEntries_no_newline r h2
    · exact absurd h2 (by decide)

/-- `breakLine` splits a newline-free chunk off the first newline. -/
theorem breakLine_chunk (l : List Char) (hl : '\n' ∉ l) (r : List Char) :
    breakLine (l ++ '\n' :: r) = (l, '\n' :: r) := by
  induction l with
  | nil => simp [breakLine]
  | cons c cs ih =>
    have hc : ¬ c = '\n' := fun h => hl (by simp [h])
    have ih2 := ih (fun h => hl (List.mem_cons_of_mem _ h))
    simp [breakLine, hc, ih2]

/-- The fuelled line splitter recovers the chunks of a newline-joined
file whenever the fuel exceeds the file length. -/
theorem linesOfAux_joinNL (chunks : List (List Char)) :
    ∀ fuel : Nat, (∀ l ∈ chunks, '\n' ∉ l) → (joinNL chunks).length < fuel →
    linesOfAux fuel (joinNL chunks) = chunks := by
  induction chunks with
  | nil => intro fuel _ _; cases fuel <;> rfl
  | cons l ls ih =>
    intro fuel hl hf
    cases fuel with
    | zero => exact absurd hf (Nat.not_lt_zero _)
    | succ f =>
      have hl0 := hl l (List.mem_cons_self _ _)
      have hjoin : joinNL (l :: ls) = l ++ '\n' :: joinNL ls := rfl
      have hbl := breakLine_chunk l hl0 (joinNL ls)
      rw [hjoin] at hf ⊢
      cases hcons : l ++ '\n' :: joinNL ls with
      | nil =>
        rcases List.append_eq_nil.mp hcons with ⟨h1, h2⟩
        simp at h2
      | cons c cs =>
        simp only [linesOfAux]
        rw [← hcons, hbl]
        show l :: linesOfAux f (joinNL ls) = l :: ls
        have hlen : (joinNL ls).length < f := by
          simp only [List.length_append, List.length_cons] at hf
          omega
        rw [ih f (fun x hx => hl x (List.mem_cons_of_mem _ hx)) hlen]

/-- `linesOf` recovers the chunks of a newline-joined file. -/
theorem linesOf_joinNL (chunks : List (List Char))
    (h : ∀ l ∈ chunks, '\n' ∉ l) : linesOf (joinNL chunks) = chunks :=
  linesOfAux_joinNL chunks _ h (Nat.lt_succ_self _)

/-- Folding `DB.insert` appends the newline-terminated serializations in
order. -/
theorem foldl_insert_content (rs : List Record) :
    ∀ db : DBFile, (rs.foldl DB.insert db).content
      = db.content ++ joinNL (rs.map dumps) := by
  induction rs with
  | nil => intro db; simp [joinNL]
  | cons r rs ih =>
    intro db
    simp only [List.foldl_cons, List.map_cons]
    rw [ih]
    simp only [DB.insert, joinNL, List.foldr_cons]
    simp [List.append_assoc]

/-- C8: for every finite sequence of records inserted via `DB.insert` into
a store opened for append on an empty backing file and then committed,
reopening the same backing file for read and iterating with `DB.loop`
parses exactly the inserted sequence of records, in insertion order: the
serialize-then-parse round trip preserves content and order. -/
theorem db_c8_roundtrip :
    ∀ rs : List Record,
    DB.loop ⟨'r', (DB.commit (rs.foldl DB.insert ⟨'a', []⟩)).content⟩
      = some (rs.map some) := by
  intro rs
  have hcontent : (DB.commit (rs.foldl DB.insert (⟨'a', []⟩ : DBFile))).content
      = joinNL (rs.map dumps) := by
    show (rs.foldl DB.insert (⟨'a', []⟩ : DBFile)).content = _
    rw [foldl_insert_content]
    rfl
  simp only [DB.loop, hcontent, if_pos rfl]
  rw [linesOf_joinNL (rs.map dumps) ?hnl]
  case hnl =>
    intro l hl
    simp only [List.mem_map] at hl
    obtain ⟨r, _, rfl⟩ := hl
    exact dumps_no_newline r
  rw [List.map_map]
  have hmap : ∀ ts : List Record,
      List.map (loads ∘ dumps) ts = List.map some ts := by
    intro ts
    induction ts with
    | nil => rfl
    | cons r t ih => simp [Function.comp, loads_dumps, ih]
  rw [hmap]
  rw [if_pos trivial]

/-- C1: evaluation at the failing input.  The corrected store holds the
single serialized record `fixRecord`, so it is non-empty; yet
`reconstruct_ids` returns the empty maps whatever the raw store holds,
because `uds.db.read()` exhausts the corrected store's file handle before
`uds.loop()` runs.  Walking the corrected store's records, as the claim
and the spec describe, would instead produce the maps
`{1: "f"}` and `{2: "m a girl"}`. -/
theorem reconstruct_ids_c1_bug :
    dumps fixRecord ++ ['\n'] ≠ [] ∧
    reconstruct_ids (dumps fixRecord ++ ['\n']) (dumps rawRecord ++ ['\n'])
      = Except.ok ([], []) ∧
    parse_ids ([], []) (linesOf (dumps fixRecord ++ ['\n']))
      = Except.ok ([(JVal.i 1, JVal.s (("f").data))],
          [(JVal.i 2, JVal.s (("m a girl").data))]) := by
  have hne : dumps fixRecord ++ ['\n'] ≠ [] := by simp [dumps]
  refine ⟨hne, ?_, ?_⟩
  · simp only [reconstruct_ids, if_neg hne]
    rfl
  · have hlines : linesOf (dumps fixRecord ++ ['\n']) = [dumps fixRecord] := by
      have h := linesOf_joinNL [dumps fixRecord] (by
        intro l hl
        simp only [List.mem_singleton] at hl
        subst hl
        exact dumps_no_newline fixRecord)
      simpa [joinNL] using h
    rw [hlines]
    simp only [parse_ids]
    rw [loads_dumps]
    rfl
